import Mathlib

/-!
Verification of the core algorithms of the vscode-mcp-server repository:
the three-tier search/replace patch engine (src/tools/search-replace.ts),
the bounded directory traversal (src/utils/virtual-fs.ts, file-tools),
and the WebSocket transport's queueing/reconnection logic
(src/websocket-transport.ts).  Documents are modelled as lists of
characters (JavaScript strings are sequences of code units; all the
operations involved are code-unit-wise).
-/

namespace VSCodeMCP

/-- The set of characters removed by JavaScript `String.prototype.trim`
(ECMAScript WhiteSpace and LineTerminator code points). -/
def isJsWhitespace (c : Char) : Bool :=
  c = ' ' || c = '\t' || c = '\n' || c = '\r' ||
  c.val = 11 || c.val = 12 || c.val = 160 || c.val = 0x1680 ||
  (0x2000 ≤ c.val && c.val ≤ 0x200A) ||
  c.val = 0x2028 || c.val = 0x2029 || c.val = 0x202F ||
  c.val = 0x205F || c.val = 0x3000 || c.val = 0xFEFF

/-- JavaScript `String.prototype.trim`: strip whitespace from both ends. -/
def jsTrim (l : List Char) : List Char :=
  ((l.dropWhile isJsWhitespace).reverse.dropWhile isJsWhitespace).reverse

/-- JavaScript `String.prototype.split(sep)` for a single-character
separator: `"a\nb".split("\n") = ["a","b"]`, `"".split("\n") = [""]`,
`"a\n".split("\n") = ["a",""]`.  The result is always non-empty. -/
def splitOnChar (sep : Char) : List Char → List (List Char)
  | [] => [[]]
  | c :: cs =>
    if c = sep then [] :: splitOnChar sep cs
    else
      match splitOnChar sep cs with
      | [] => [[c]]
      | l :: ls => (c :: l) :: ls

/-- `split("\n")`, the line splitting used throughout search-replace.ts. -/
def splitNl (l : List Char) : List (List Char) := splitOnChar '\n' l

theorem splitOnChar_ne_nil (sep : Char) (l : List Char) :
    splitOnChar sep l ≠ [] := by
  cases l with
  | nil => simp [splitOnChar]
  | cons c cs =>
    simp only [splitOnChar]
    split
    · simp
    · split <;> simp

/-- Lines of a text, each weighted by `length + 1` (content plus the
line terminator the code always accounts for), sum to `length + 1`. -/
theorem splitNl_sum (l : List Char) :
    ((splitNl l).map (fun s => s.length + 1)).sum = l.length + 1 := by
  induction l with
  | nil => simp [splitNl, splitOnChar]
  | cons c cs ih =>
    simp only [splitNl, splitOnChar] at *
    split
    · simp only [List.map_cons, List.sum_cons, List.length_cons, List.length_nil] at ih ⊢
      omega
    · rename_i hc
      rcases h : splitOnChar '\n' cs with _ | ⟨x, xs⟩
      · exact absurd h (splitOnChar_ne_nil '\n' cs)
      · rw [h] at ih
        simp only [List.map_cons, List.sum_cons, List.length_cons] at ih ⊢
        omega

/-- JavaScript `String.prototype.indexOf` scanning: try positions
`i, i+1, ...` in `rest` (a suffix of the original) and return the
absolute position of the first at which `search` is a prefix. -/
def indexOfAux (search : List Char) : List Char → Nat → Option Nat
  | [], i => if search.isPrefixOf ([] : List Char) then some i else none
  | c :: rest, i =>
    if search.isPrefixOf (c :: rest) then some i
    else indexOfAux search rest (i + 1)

/-- `originalContent.indexOf(searchContent, startIndex)` as used by
`findExactMatch` (startIndex ≥ 0 in all call sites). -/
def jsIndexOf (orig search : List Char) (startIndex : Nat) : Option Nat :=
  (indexOfAux search (orig.drop startIndex) 0).map (· + startIndex)

/-- search-replace.ts `findExactMatch`: leftmost verbatim occurrence,
returned as `(index, index + search.length)`. -/
def findExactMatch (originalContent searchContent : List Char)
    (startIndex : Nat := 0) : Option (Nat × Nat) :=
  (jsIndexOf originalContent searchContent startIndex).map
    (fun index => (index, index + searchContent.length))

/-- The `searchLines.pop()` step: remove a single trailing empty line. -/
def popTrailingEmpty (ls : List (List Char)) : List (List Char) :=
  if ls.getLast? = some ([] : List Char) then ls.dropLast else ls

/-- The `while (currentIndex < startIndex ...)` loop of
`findTrimmedMatch`/`findAnchorMatch`: the number of leading lines whose
cumulative `length + 1` stays below `startIndex`. -/
def startLineNumOf : List (List Char) → Nat → Nat
  | _, 0 => 0
  | [], _ => 0
  | l :: ls, s => 1 + startLineNumOf ls (s - (l.length + 1))

/-- Character offset of the start of line `i`: every earlier line
contributes its length plus one for the newline. -/
def lineStartOffset (lines : List (List Char)) (i : Nat) : Nat :=
  ((lines.take i).map (fun l => l.length + 1)).sum

/-- Character offset just past a block of `count` document lines
starting at line `i` (each line counted as `length + 1`). -/
def blockEndOffset (lines : List (List Char)) (i count : Nat) : Nat :=
  lineStartOffset lines i +
    (((lines.drop i).take count).map (fun l => l.length + 1)).sum

/-- search-replace.ts `findTrimmedMatch`: line-by-line comparison of
trimmed lines, scanning candidate start lines left to right. -/
def findTrimmedMatch (originalContent searchContent : List Char)
    (startIndex : Nat := 0) : Option (Nat × Nat) :=
  let originalLines := splitNl originalContent
  let searchLines := popTrailingEmpty (splitNl searchContent)
  let startLineNum := startLineNumOf originalLines startIndex
  if searchLines.length ≤ originalLines.length then
    match (List.range' startLineNum
        (originalLines.length - searchLines.length + 1 - startLineNum)).find?
        (fun i => ((originalLines.drop i).take searchLines.length).map jsTrim
          == searchLines.map jsTrim) with
    | some i => some (lineStartOffset originalLines i,
        blockEndOffset originalLines i searchLines.length)
    | none => none
  else none

/-- search-replace.ts `findAnchorMatch`: the 3-raw-line guard is checked
before the trailing empty line is removed; then only the first and last
trimmed lines of a block of `searchLines.length` document lines must
match. -/
def findAnchorMatch (originalContent searchContent : List Char)
    (startIndex : Nat := 0) : Option (Nat × Nat) :=
  let originalLines := splitNl originalContent
  let searchLinesRaw := splitNl searchContent
  if searchLinesRaw.length < 3 then none
  else
    let searchLines := popTrailingEmpty searchLinesRaw
    let firstLineSearch := jsTrim (searchLines.headD [])
    let lastLineSearch := jsTrim (searchLines.getLastD [])
    let blockSize := searchLines.length
    let startLineNum := startLineNumOf originalLines startIndex
    if blockSize ≤ originalLines.length then
      match (List.range' startLineNum
          (originalLines.length - blockSize + 1 - startLineNum)).find?
          (fun i => jsTrim (originalLines.getD i []) == firstLineSearch
            && jsTrim (originalLines.getD (i + blockSize - 1) [])
              == lastLineSearch) with
      | some i => some (lineStartOffset originalLines i,
          blockEndOffset originalLines i blockSize)
      | none => none
    else none

/-- The error message thrown by `applySearchReplace` when no tier
matches. -/
def notFoundMessage : String :=
  "Could not find the specified content in the file. The search content does not match any part of the file."

/-- search-replace.ts `applySearchReplace`: empty/whitespace-only search
replaces the whole document; otherwise exact, then trimmed, then anchor
tier; throwing is modelled as `Except.error`. -/
def applySearchReplace (originalContent searchContent replaceContent :
    List Char) : Except String (List Char) :=
  if searchContent.isEmpty || (jsTrim searchContent).isEmpty then
    .ok replaceContent
  else
    let m := match findExactMatch originalContent searchContent 0 with
      | some m => some m
      | none => match findTrimmedMatch originalContent searchContent 0 with
        | some m => some m
        | none => findAnchorMatch originalContent searchContent 0
    match m with
    | none => .error notFoundMessage
    | some (startIndex, endIndex) =>
      .ok (originalContent.take startIndex ++ replaceContent ++
        originalContent.drop endIndex)

/-- search-replace.ts `searchReplaceInFile`, reduced to its
state-transforming content: the new file content is written only when
`applySearchReplace` succeeds; on a thrown error the file keeps its
original content and the error is surfaced to the caller. -/
def searchReplaceInFile (fileContent searchContent replaceContent :
    List Char) : List Char × Option String :=
  match applySearchReplace fileContent searchContent replaceContent with
  | .ok modified => (modified, none)
  | .error e => (fileContent, some e)

/-- The spec's concrete scenario: document `"a\nb\nc\n"`, search `"b"`,
replace `"X"` yields `"a\nX\nc\n"`. -/
theorem applySearchReplace_concrete_scenario :
    applySearchReplace "a\nb\nc\n".toList "b".toList "X".toList
      = .ok "a\nX\nc\n".toList := by rfl

theorem indexOfAux_some (s : List Char) :
    ∀ (l : List Char) (i j : Nat), indexOfAux s l i = some j →
      ∃ k, j = i + k ∧ k ≤ l.length ∧ s.isPrefixOf (l.drop k) = true ∧
        ∀ m, m < k → s.isPrefixOf (l.drop m) = false := by
  intro l
  induction l with
  | nil =>
    intro i j h
    simp only [indexOfAux] at h
    split at h
    · rename_i hp
      injection h with h
      exact ⟨0, by omega, by omega, by simpa using hp,
        fun m hm => absurd hm (Nat.not_lt_zero m)⟩
    · exact absurd h (by simp)
  | cons c rest ih =>
    intro i j h
    simp only [indexOfAux] at h
    split at h
    · rename_i hp
      injection h with h
      exact ⟨0, by omega, by omega, by simpa using hp,
        fun m hm => absurd hm (Nat.not_lt_zero m)⟩
    · rename_i hp
      obtain ⟨k', hj, hkle, hpre, hmin⟩ := ih (i + 1) j h
      refine ⟨k' + 1, by omega, by simp; omega, by simpa using hpre, ?_⟩
      intro m hm
      cases m with
      | zero => simpa using Bool.of_not_eq_true hp
      | succ m' => simpa using hmin m' (by omega)

theorem indexOfAux_complete (s : List Char) :
    ∀ (l : List Char) (i k : Nat), s.isPrefixOf (l.drop k) = true →
      ∃ j, indexOfAux s l i = some j := by
  intro l
  induction l with
  | nil =>
    intro i k h
    simp only [List.drop_nil] at h
    exact ⟨i, by simp [indexOfAux, h]⟩
  | cons c rest ih =>
    intro i k h
    by_cases hp : s.isPrefixOf (c :: rest) = true
    · exact ⟨i, by simp [indexOfAux, hp]⟩
    · cases k with
      | zero => exact absurd (by simpa using h) hp
      | succ k' =>
        obtain ⟨j, hj⟩ := ih (i + 1) k' (by simpa using h)
        exact ⟨j, by simp [indexOfAux, hp, hj]⟩

/-- C1 (amended): for every search text that is non-empty after
trimming and occurs verbatim in the document, `applySearchReplace`
replaces exactly the first (leftmost) occurrence and alters nothing
else.  (The unamended claim fails for whitespace-only search texts,
which trigger whole-document replacement — see the counterexample.) -/
theorem applySearchReplace_first_occurrence (d s r : List Char)
    (hs : jsTrim s ≠ [])
    (hocc : ∃ k, s.isPrefixOf (d.drop k) = true) :
    ∃ i, s.isPrefixOf (d.drop i) = true ∧
      (∀ j, j < i → s.isPrefixOf (d.drop j) = false) ∧
      d = d.take i ++ s ++ d.drop (i + s.length) ∧
      applySearchReplace d s r =
        .ok (d.take i ++ r ++ d.drop (i + s.length)) := by
  obtain ⟨k, hk⟩ := hocc
  obtain ⟨j, hj⟩ := indexOfAux_complete s d 0 k hk
  obtain ⟨i, hi0, hile, hpre, hmin⟩ := indexOfAux_some s d 0 j hj
  subst hi0
  have hsne : s ≠ [] := fun h => hs (by simp [h, jsTrim])
  have hsplit : d = d.take i ++ s ++ d.drop (i + s.length) := by
    have hpfx : s <+: d.drop i := List.isPrefixOf_iff_prefix.mp hpre
    obtain ⟨t, ht⟩ := hpfx
    have hdt : d.drop (i + s.length) = t := by
      rw [← List.drop_drop, ← ht, List.drop_left]
    conv_lhs => rw [← List.take_append_drop i d, ← ht]
    rw [hdt, List.append_assoc]
  refine ⟨i, hpre, hmin, hsplit, ?_⟩
  have hmatch : findExactMatch d s 0 = some (i, i + s.length) := by
    simp [findExactMatch, jsIndexOf, hj]
  have hguard : (s.isEmpty || (jsTrim s).isEmpty) = false := by
    simp [List.isEmpty_iff, hsne, hs]
  simp [applySearchReplace, hguard, hmatch]

/-- C1 counterexample: the search text `" "` is non-empty and occurs
verbatim in the document `"a b"` (first occurrence at index 1), yet the
patch engine returns the bare replacement `"X"` (whole-document
replacement for whitespace-only search), not `"aXb"` as the claim
requires. -/
theorem applySearchReplace_whitespace_counterexample :
    " ".toList ≠ ([] : List Char) ∧
    " ".toList.isPrefixOf ("a b".toList.drop 1) = true ∧
    (∀ j, j < 1 → " ".toList.isPrefixOf ("a b".toList.drop j) = false) ∧
    applySearchReplace "a b".toList " ".toList "X".toList
      = .ok "X".toList ∧
    "X".toList ≠
      "a b".toList.take 1 ++ "X".toList ++ "a b".toList.drop 2 := by
  refine ⟨by decide, by decide, ?_, by rfl, by decide⟩
  intro j hj
  interval_cases j
  decide

/-- C1 witness: the spec's own concrete scenario — document
`"a\nb\nc\n"`, search `"b"`, replacement `"X"` — instantiates the
amended theorem. -/
theorem applySearchReplace_first_occurrence_witness :
    ∃ i, "b".toList.isPrefixOf ("a\nb\nc\n".toList.drop i) = true ∧
      (∀ j, j < i → "b".toList.isPrefixOf ("a\nb\nc\n".toList.drop j) = false) ∧
      "a\nb\nc\n".toList = "a\nb\nc\n".toList.take i ++ "b".toList ++
        "a\nb\nc\n".toList.drop (i + "b".toList.length) ∧
      applySearchReplace "a\nb\nc\n".toList "b".toList "X".toList =
        .ok ("a\nb\nc\n".toList.take i ++ "X".toList ++
          "a\nb\nc\n".toList.drop (i + "b".toList.length)) :=
  applySearchReplace_first_occurrence "a\nb\nc\n".toList "b".toList
    "X".toList (by decide) ⟨2, by decide⟩

/-- C2: an empty or whitespace-only search text (trim yields the empty
string) makes `applySearchReplace` return exactly the replacement,
bypassing all three matching tiers. -/
theorem applySearchReplace_whole_document (d s r : List Char)
    (h : jsTrim s = []) :
    applySearchReplace d s r = .ok r := by
  simp [applySearchReplace, h]

/-- C2 witness at a concrete whitespace-only search text. -/
theorem applySearchReplace_whole_document_witness :
    jsTrim "  ".toList = [] ∧
    applySearchReplace "some document".toList "  ".toList "R".toList
      = .ok "R".toList :=
  ⟨by decide, applySearchReplace_whole_document _ _ _ (by decide)⟩

/-- C3 (amended): when the search text is non-empty AND not
whitespace-only after trimming and no tier matches, the operation
surfaces the "content not found" error and the file content is
unchanged (the caller writes only after a successful match).  (For a
non-empty but whitespace-only search text no tier ever matches either,
yet no error is raised: the whole-document-replacement sentinel fires
first — see the counterexample.) -/
theorem searchReplaceInFile_not_found (d s r : List Char)
    (h1 : jsTrim s ≠ [])
    (h2 : findExactMatch d s 0 = none)
    (h3 : findTrimmedMatch d s 0 = none)
    (h4 : findAnchorMatch d s 0 = none) :
    searchReplaceInFile d s r = (d, some notFoundMessage) := by
  have hsne : s ≠ [] := fun h => h1 (by simp [h, jsTrim])
  have hguard : (s.isEmpty || (jsTrim s).isEmpty) = false := by
    simp [List.isEmpty_iff, hsne, h1]
  simp [searchReplaceInFile, applySearchReplace, hguard, h2, h3, h4]

/-- C3 counterexample: the search text `" "` is non-empty and matched
by none of the three tiers in the document `"abc"`, yet the operation
raises no error and the document is replaced by `"X"`: the
whitespace-only sentinel bypasses the tiers and the not-found check,
refuting the claim as stated. -/
theorem searchReplaceInFile_whitespace_counterexample :
    " ".toList ≠ ([] : List Char) ∧
    findExactMatch "abc".toList " ".toList 0 = none ∧
    findTrimmedMatch "abc".toList " ".toList 0 = none ∧
    findAnchorMatch "abc".toList " ".toList 0 = none ∧
    searchReplaceInFile "abc".toList " ".toList "X".toList
      = ("X".toList, none) ∧
    "X".toList ≠ "abc".toList :=
  ⟨by decide, by rfl, by rfl, by rfl, by rfl, by decide⟩

/-- C3 witness: a concrete search text matching none of the tiers. -/
theorem searchReplaceInFile_not_found_witness :
    jsTrim "zzz".toList ≠ [] ∧
    searchReplaceInFile "abc".toList "zzz".toList "r".toList
      = ("abc".toList, some notFoundMessage) :=
  ⟨by decide, searchReplaceInFile_not_found _ _ _ (by decide) (by rfl)
    (by rfl) (by rfl)⟩

theorem blockEndOffset_le (lines : List (List Char)) (i count : Nat) :
    blockEndOffset lines i count ≤
      (lines.map (fun l => l.length + 1)).sum := by
  unfold blockEndOffset lineStartOffset
  have h1 : ((lines.take i).map (fun l => l.length + 1)).sum +
      ((lines.drop i).map (fun l => l.length + 1)).sum =
      (lines.map (fun l => l.length + 1)).sum := by
    rw [← List.sum_append, ← List.map_append, List.take_append_drop]
  have h2 : (((lines.drop i).take count).map (fun l => l.length + 1)).sum ≤
      ((lines.drop i).map (fun l => l.length + 1)).sum := by
    conv_rhs => rw [← List.take_append_drop count (lines.drop i)]
    rw [List.map_append, List.sum_append]
    exact Nat.le_add_right _ _
  omega

/-- C5 (amended): every tier returns `start ≤ end`, with
`end ≤ length + 1`; the exact tier moreover keeps `end ≤ length`, but
the whitespace-tolerant and anchor tiers can return `end = length + 1`
when the matched block is the final run of lines of a document without
a trailing newline (see the counterexample). -/
theorem matchResult_bounds (d s : List Char) (a b : Nat) :
    (findExactMatch d s 0 = some (a, b) → a ≤ b ∧ b ≤ d.length) ∧
    (findTrimmedMatch d s 0 = some (a, b) → a ≤ b ∧ b ≤ d.length + 1) ∧
    (findAnchorMatch d s 0 = some (a, b) → a ≤ b ∧ b ≤ d.length + 1) := by
  refine ⟨?_, ?_, ?_⟩
  · intro h
    simp only [findExactMatch, jsIndexOf, List.drop_zero, Option.map_map,
      Option.map_eq_some'] at h
    obtain ⟨j, hj, hab⟩ := h
    obtain ⟨k, hk0, hkle, hpre, -⟩ := indexOfAux_some s d 0 j hj
    have hlen : s.length ≤ (d.drop k).length :=
      (List.isPrefixOf_iff_prefix.mp hpre).length_le
    simp only [List.length_drop] at hlen
    simp only [Function.comp_apply, Prod.mk.injEq] at hab
    omega
  · intro h
    simp only [findTrimmedMatch] at h
    split at h
    · rename_i hle
      split at h
      · rename_i i hfind
        injection h with h
        have hb := blockEndOffset_le (splitNl d) i
          (popTrailingEmpty (splitNl s)).length
        rw [splitNl_sum] at hb
        have ha : lineStartOffset (splitNl d) i ≤
            blockEndOffset (splitNl d) i
              (popTrailingEmpty (splitNl s)).length :=
          Nat.le_add_right _ _
        obtain ⟨h1, h2⟩ := Prod.mk.injEq .. ▸ h
        omega
      · exact absurd h (by simp)
    · exact absurd h (by simp)
  · intro h
    simp only [findAnchorMatch] at h
    split at h
    · exact absurd h (by simp)
    · split at h
      · rename_i hle
        split at h
        · rename_i i hfind
          injection h with h
          have hb := blockEndOffset_le (splitNl d) i
            (popTrailingEmpty (splitNl s)).length
          rw [splitNl_sum] at hb
          have ha : lineStartOffset (splitNl d) i ≤
              blockEndOffset (splitNl d) i
                (popTrailingEmpty (splitNl s)).length :=
            Nat.le_add_right _ _
          obtain ⟨h1, h2⟩ := Prod.mk.injEq .. ▸ h
          omega
        · exact absurd h (by simp)
      · exact absurd h (by simp)

/-- C5 counterexample: in the document `" a\n b"` (length 5, no
trailing newline) the whitespace-tolerant tier matches the final two
lines and returns end offset 6 = length + 1, exceeding the document
length. -/
theorem matchResult_end_exceeds_counterexample :
    findTrimmedMatch " a\n b".toList "a\nb".toList 0 = some (0, 6) ∧
    " a\n b".toList.length = 5 := ⟨by rfl, by rfl⟩

/-- C5 witness: the amended bounds at the same concrete match. -/
theorem matchResult_bounds_witness :
    0 ≤ 6 ∧ 6 ≤ " a\n b".toList.length + 1 :=
  (matchResult_bounds " a\n b".toList "a\nb".toList 0 6).2.1 (by rfl)

theorem startLineNumOf_zero (ls : List (List Char)) :
    startLineNumOf ls 0 = 0 := by
  cases ls <;> rfl

theorem drop_take_two (l : List (List Char)) (i : Nat)
    (hi : i + 2 ≤ l.length) :
    (l.drop i).take 2 = [l[i]?.getD [], l[i + 1]?.getD []] := by
  have h1 : i < l.length := by omega
  have h2 : i + 1 < l.length := by omega
  rw [List.drop_eq_getElem_cons h1, List.take_succ_cons,
    List.drop_eq_getElem_cons h2, List.take_succ_cons, List.take_zero]
  simp [List.getElem?_eq_getElem, h1, h2]

/-- C4 (amended): the anchor tier's 3-line guard is checked on the raw
line count, before trailing-empty-line removal, so a 2-line search text
with a trailing newline does reach the anchor scan with block size 2;
nevertheless any anchor match of a 2-line block is also a
whitespace-tolerant match, so whenever the whitespace-tolerant tier has
failed the anchor tier also fails and the operation falls through to
the not-found error. -/
theorem findAnchorMatch_two_lines (d s : List Char) :
    ((splitNl s).length < 3 → findAnchorMatch d s 0 = none) ∧
    ((popTrailingEmpty (splitNl s)).length = 2 →
      findTrimmedMatch d s 0 = none → findAnchorMatch d s 0 = none) := by
  constructor
  · intro h
    simp [findAnchorMatch, h]
  · intro h2 htr
    by_cases hraw : (splitNl s).length < 3
    · simp [findAnchorMatch, hraw]
    · obtain ⟨l0, l1, hsl⟩ := List.length_eq_two.mp h2
      simp only [findTrimmedMatch, hsl, List.length_cons, List.length_nil,
        startLineNumOf_zero] at htr
      simp only [findAnchorMatch, if_neg hraw, hsl, List.length_cons,
        List.length_nil, List.headD_cons, List.getLastD_cons,
        startLineNumOf_zero]
      split at htr
      · rename_i hle
        rw [if_pos hle]
        split at htr
        · exact absurd htr (by simp)
        · rename_i hfindT
          split
          · rename_i i hfindA
            exfalso
            have hpA := List.find?_some hfindA
            have hmem := List.mem_of_find?_eq_some hfindA
            rw [List.mem_range'_1] at hmem
            have hi : i + 2 ≤ (splitNl d).length := by omega
            have hpT := List.find?_eq_none.mp hfindT i (by
              rw [List.mem_range'_1]; omega)
            have hpA' : jsTrim ((splitNl d)[i]?.getD []) = jsTrim l0 ∧
                jsTrim ((splitNl d)[i+1]?.getD []) = jsTrim l1 := by
              simpa [List.getD_eq_getElem?_getD, List.getLastD_nil,
                show i + (0 + 1 + 1) - 1 = i + 1 from by omega] using hpA
            apply hpT
            have htk : List.take (0 + 1 + 1) (List.drop i (splitNl d)) =
                [(splitNl d)[i]?.getD [], (splitNl d)[i+1]?.getD []] :=
              drop_take_two (splitNl d) i hi
            simp [htk, hpA'.1, hpA'.2]
          · rfl
      · rename_i hle
        rw [if_neg hle]

/-- C4 counterexample: the 2-line search text `"a\nb\n"` (with trailing
newline) has exactly 2 lines after trailing-empty-line removal, yet the
anchor tier is attempted and even produces a match in the document
`"a\nb"` — refuting "attempted only when the search text has at least 3
lines after removal of a single trailing empty line". -/
theorem findAnchorMatch_attempted_counterexample :
    (popTrailingEmpty (splitNl "a\nb\n".toList)).length = 2 ∧
    findAnchorMatch "a\nb".toList "a\nb\n".toList 0 = some (0, 4) :=
  ⟨by rfl, by rfl⟩

/-- C4 witness: concrete 2-line searches where the anchor tier yields
nothing, both with and without a trailing newline. -/
theorem findAnchorMatch_two_lines_witness :
    findAnchorMatch "x\ny".toList "a\nb".toList 0 = none ∧
    findAnchorMatch "x\ny".toList "a\nb\n".toList 0 = none :=
  ⟨(findAnchorMatch_two_lines "x\ny".toList "a\nb".toList).1 (by decide),
   (findAnchorMatch_two_lines "x\ny".toList "a\nb\n".toList).2 (by decide)
     (by rfl)⟩

/-! ## WebSocket transport (src/websocket-transport.ts) -/

/-- The JSON-RPC error object carried by error responses. -/
structure JSONRPCError where
  code : Int
  message : String
deriving DecidableEq, Repr

/-- The JSON-RPC message envelope of websocket-transport.ts (payloads
not relevant to queueing/sending are elided). -/
structure JSONRPCMessage where
  id : Option Nat := none
  method : Option String := none
  error : Option JSONRPCError := none
deriving DecidableEq, Repr

/-- The transport state relevant to `send` and the `open` handler:
whether `this.ws` exists and is in readyState OPEN, the pending
`messageQueue`, and (as observable history) the frames passed to
`ws.send` in order. -/
structure WSTransportState where
  wsOpen : Bool
  messageQueue : List JSONRPCMessage
  sentFrames : List JSONRPCMessage
deriving DecidableEq, Repr

namespace WSTransportState

/-- `WebSocketTransport.send`: when the socket is not open the message
is queued and the promise resolves normally; when open it is
transmitted, and a throwing `ws.send` (modelled by the `sendFailure`
oracle) is suppressed for messages carrying an error payload but
re-thrown wrapped for all others. -/
def send (sendFailure : Option String) (message : JSONRPCMessage)
    (st : WSTransportState) : WSTransportState × Except String Unit :=
  if !st.wsOpen then
    ({st with messageQueue := st.messageQueue ++ [message]}, .ok ())
  else
    match sendFailure with
    | none => ({st with sentFrames := st.sentFrames ++ [message]}, .ok ())
    | some e =>
      if message.error.isSome then (st, .ok ())
      else (st, .error ("Failed to send message: " ++ e))

/-- The `while (this.messageQueue.length > 0)` drain loop of the `open`
handler: shift the head and transmit it, FIFO. -/
def drainQueue : List JSONRPCMessage → List JSONRPCMessage →
    List JSONRPCMessage
  | [], sent => sent
  | m :: rest, sent => drainQueue rest (sent ++ [m])

/-- The `open` event handler: mark connected and flush the queue in
order. -/
def handleOpen (st : WSTransportState) : WSTransportState :=
  { wsOpen := true,
    messageQueue := [],
    sentFrames := drainQueue st.messageQueue st.sentFrames }

theorem drainQueue_eq_append :
    ∀ (q sent : List JSONRPCMessage), drainQueue q sent = sent ++ q := by
  intro q
  induction q with
  | nil => simp [drainQueue]
  | cons m rest ih => intro sent; simp [drainQueue, ih]

end WSTransportState

/-- Events driving the transport state: a `send` call (with the
underlying `ws.send` failure oracle) or the socket's `open` event. -/
inductive TransportEvent where
  | sendEvt (sendFailure : Option String) (m : JSONRPCMessage)
  | openEvt
deriving DecidableEq

/-- One event step of the transport. -/
def transportStep (ev : TransportEvent) (st : WSTransportState) :
    WSTransportState :=
  match ev with
  | .sendEvt f m => (st.send f m).1
  | .openEvt => st.handleOpen

/-- A sequence of events applied in order. -/
def transportRun (evs : List TransportEvent) (st : WSTransportState) :
    WSTransportState :=
  evs.foldl (fun s e => transportStep e s) st

/-- The transport state right after construction. -/
def initialTransport : WSTransportState :=
  { wsOpen := false, messageQueue := [], sentFrames := [] }

theorem transportRun_sends_closed (ms : List JSONRPCMessage)
    (st : WSTransportState) (h : st.wsOpen = false) :
    transportRun (ms.map (TransportEvent.sendEvt none)) st =
      {st with messageQueue := st.messageQueue ++ ms} := by
  induction ms generalizing st with
  | nil => simp [transportRun]
  | cons m rest ih =>
    simp only [List.map_cons, transportRun, List.foldl_cons]
    rw [show (transportStep (TransportEvent.sendEvt none m) st) =
      {st with messageQueue := st.messageQueue ++ [m]} by
        simp [transportStep, WSTransportState.send, h]]
    have := ih {st with messageQueue := st.messageQueue ++ [m]} (by simp [h])
    simp only [transportRun] at this
    rw [this]
    simp

theorem transportRun_sends_open (ms : List JSONRPCMessage)
    (st : WSTransportState) (h : st.wsOpen = true) :
    transportRun (ms.map (TransportEvent.sendEvt none)) st =
      {st with sentFrames := st.sentFrames ++ ms} := by
  induction ms generalizing st with
  | nil => simp [transportRun]
  | cons m rest ih =>
    simp only [List.map_cons, transportRun, List.foldl_cons]
    rw [show (transportStep (TransportEvent.sendEvt none m) st) =
      {st with sentFrames := st.sentFrames ++ [m]} by
        simp [transportStep, WSTransportState.send, h]]
    have := ih {st with sentFrames := st.sentFrames ++ [m]} (by simp [h])
    simp only [transportRun] at this
    rw [this]
    simp

/-- C7: every message sent while the socket is not open is appended to
the pending queue with `send` resolving normally, and a run of sends
before the open transition followed by sends after it puts exactly the
pre-open messages first, in enqueue order, followed by the post-open
messages — nothing lost or reordered. -/
theorem transport_queue_ordering (ms₁ ms₂ : List JSONRPCMessage) :
    (∀ (st : WSTransportState) (f : Option String) (m : JSONRPCMessage),
      st.wsOpen = false →
        st.send f m = ({st with messageQueue := st.messageQueue ++ [m]},
          .ok ())) ∧
    transportRun (ms₁.map (TransportEvent.sendEvt none) ++
        TransportEvent.openEvt :: ms₂.map (TransportEvent.sendEvt none))
        initialTransport =
      { wsOpen := true, messageQueue := [], sentFrames := ms₁ ++ ms₂ } := by
  constructor
  · intro st f m h
    simp [WSTransportState.send, h]
  · rw [transportRun, List.foldl_append]
    rw [show List.foldl (fun s e => transportStep e s) initialTransport
        (ms₁.map (TransportEvent.sendEvt none)) =
        transportRun (ms₁.map (TransportEvent.sendEvt none))
          initialTransport from rfl]
    rw [transportRun_sends_closed ms₁ initialTransport rfl]
    simp only [List.foldl_cons]
    rw [show transportStep TransportEvent.openEvt
        {initialTransport with
          messageQueue := initialTransport.messageQueue ++ ms₁} =
        { wsOpen := true, messageQueue := [], sentFrames := ms₁ } by
      simp [transportStep, WSTransportState.handleOpen, initialTransport,
        WSTransportState.drainQueue_eq_append]]
    rw [show List.foldl (fun s e => transportStep e s)
        { wsOpen := true, messageQueue := [], sentFrames := ms₁ }
        (ms₂.map (TransportEvent.sendEvt none)) =
        transportRun (ms₂.map (TransportEvent.sendEvt none))
          { wsOpen := true, messageQueue := [], sentFrames := ms₁ }
        from rfl]
    rw [transportRun_sends_open ms₂ _ rfl]

/-- C7 witness: two messages queued while disconnected precede one sent
after the open transition. -/
theorem transport_queue_ordering_witness :
    ({ wsOpen := false, messageQueue := [], sentFrames := [] } :
        WSTransportState).send none { id := some 1 } =
      ({ wsOpen := false,
         messageQueue := [{ id := some 1 }],
         sentFrames := [] }, .ok ()) ∧
    transportRun
        ([{ id := some 1 }, { id := some 2 }].map
          (TransportEvent.sendEvt none) ++ TransportEvent.openEvt ::
            [{ id := some 3 }].map (TransportEvent.sendEvt none))
        initialTransport =
      { wsOpen := true,
        messageQueue := [],
        sentFrames := [{ id := some 1 }, { id := some 2 },
          { id := some 3 }] } := by
  have h := transport_queue_ordering [{ id := some 1 }, { id := some 2 }]
    [{ id := some 3 }]
  exact ⟨h.1 _ none { id := some 1 } rfl, h.2⟩

/-- C10: with the socket open and the underlying `ws.send` throwing,
`send` resolves normally (failure suppressed, nothing transmitted) when
the message carries a JSON-RPC error payload, and rejects with a
wrapped error for every other message. -/
theorem transport_send_error_suppression (st : WSTransportState)
    (m : JSONRPCMessage) (e : String) (h : st.wsOpen = true) :
    st.send (some e) m =
      (if m.error.isSome then (st, .ok ())
       else (st, .error ("Failed to send message: " ++ e))) := by
  simp [WSTransportState.send, h]

/-- C10 witness: a concrete open state where sending an error response
fails silently while a request rejects. -/
theorem transport_send_error_suppression_witness :
    ({ wsOpen := true, messageQueue := [], sentFrames := [] } :
        WSTransportState).send (some "boom")
        { id := some 1, error := some ⟨-32000, "oops"⟩ } =
      ({ wsOpen := true, messageQueue := [], sentFrames := [] },
        .ok ()) ∧
    ({ wsOpen := true, messageQueue := [], sentFrames := [] } :
        WSTransportState).send (some "boom") { id := some 1 } =
      ({ wsOpen := true, messageQueue := [], sentFrames := [] },
        .error "Failed to send message: boom") := by
  constructor
  · exact (transport_send_error_suppression _ _ "boom" rfl).trans (by rfl)
  · exact (transport_send_error_suppression _ _ "boom" rfl).trans (by rfl)

/-! ## Reconnection state machine (websocket-transport.ts reconnect) -/

/-- `maxReconnectAttempts` of WebSocketTransport. -/
def maxReconnectAttempts : Nat := 20

/-- The fields of WebSocketTransport driving `reconnect`, plus two
observable histories: how many reconnect timers were scheduled
(`setTimeout` calls) and how many times the irrecoverable-failure
signal (operator notification + bridge-disable command) fired. -/
structure ReconnectState where
  reconnectAttempts : Nat
  reconnectDelay : Nat
  isReconnecting : Bool
  scheduledTimers : Nat
  terminalSignals : Nat
deriving DecidableEq, Repr

/-- The synchronous body of `WebSocketTransport.reconnect`. -/
def reconnect (st : ReconnectState) : ReconnectState :=
  if st.isReconnecting then st
  else
    let st := {st with isReconnecting := true,
                       reconnectAttempts := st.reconnectAttempts + 1}
    if maxReconnectAttempts < st.reconnectAttempts then
      {st with isReconnecting := false,
               terminalSignals := st.terminalSignals + 1}
    else
      {st with scheduledTimers := st.scheduledTimers + 1,
               reconnectDelay := st.reconnectDelay * 2}

/-- The scheduled attempt's failure path: `start()` rejects, the catch
clause clears `isReconnecting` and calls `reconnect()` again. -/
def reconnectAttemptFails (st : ReconnectState) : ReconnectState :=
  reconnect {st with isReconnecting := false}

/-- Field values at transport construction. -/
def initialReconnectState : ReconnectState :=
  { reconnectAttempts := 0, reconnectDelay := 1000,
    isReconnecting := false, scheduledTimers := 0, terminalSignals := 0 }

/-- `n` successive failing reconnect attempts. -/
def iterateFailures : Nat → ReconnectState → ReconnectState
  | 0, st => st
  | n + 1, st => iterateFailures n (reconnectAttemptFails st)

/-- C8 counterexample: after the first close event and 20 failed
attempts the terminal signal has fired once (attempt 21 exceeds the
maximum), but one more reconnect call — e.g. from a later close event —
fires it a second time: the signal is not raised exactly once. -/
theorem reconnect_terminal_signal_twice_counterexample :
    (iterateFailures 20 (reconnect initialReconnectState)).terminalSignals
      = 1 ∧
    (iterateFailures 20 (reconnect initialReconnectState)).scheduledTimers
      = 20 ∧
    (iterateFailures 21 (reconnect initialReconnectState)).terminalSignals
      = 2 := by
  refine ⟨?_, ?_, ?_⟩ <;> rfl

/-- C8 (amended): once the attempt counter has reached the maximum and
no attempt is in flight, a `reconnect()` call schedules no timer,
raises the irrecoverable-failure signal (once per such call, so at
least once overall but possibly more than once if further close events
or reconnect calls occur), and leaves the counter above the maximum so
no reconnection is ever scheduled again. -/
theorem reconnect_exhausted (st : ReconnectState)
    (h1 : maxReconnectAttempts ≤ st.reconnectAttempts)
    (h2 : st.isReconnecting = false) :
    (reconnect st).scheduledTimers = st.scheduledTimers ∧
    (reconnect st).terminalSignals = st.terminalSignals + 1 ∧
    (reconnect st).isReconnecting = false ∧
    (reconnect st).reconnectAttempts = st.reconnectAttempts + 1 := by
  have hgt : maxReconnectAttempts < st.reconnectAttempts + 1 := by omega
  simp [reconnect, h2, hgt]

/-- C8 witness: the exhausted state reached after 20 failed attempts. -/
theorem reconnect_exhausted_witness :
    maxReconnectAttempts ≤ 20 ∧
    (reconnect { reconnectAttempts := 20, reconnectDelay := 1048576000,
                 isReconnecting := false, scheduledTimers := 20,
                 terminalSignals := 0 }).scheduledTimers = 20 ∧
    (reconnect { reconnectAttempts := 20, reconnectDelay := 1048576000,
                 isReconnecting := false, scheduledTimers := 20,
                 terminalSignals := 0 }).terminalSignals = 1 := by
  have h := reconnect_exhausted
    { reconnectAttempts := 20, reconnectDelay := 1048576000,
      isReconnecting := false, scheduledTimers := 20,
      terminalSignals := 0 } (by decide) rfl
  exact ⟨by decide, h.1, h.2.1⟩

/-! ## Gitignore pattern cache (virtual-fs.ts) -/

/-- virtual-fs.ts `readGitignorePatterns`: split the ignore file on
newlines, trim each line, drop empty lines and comments. -/
def readGitignorePatterns (content : List Char) : List (List Char) :=
  ((splitNl content).map jsTrim).filter
    (fun line => !line.isEmpty && !(List.isPrefixOf ['#'] line))

/-- virtual-fs.ts `matchesGitignorePattern`: backslashes normalised to
slashes; patterns containing a slash match by substring containment,
other patterns match any path segment by equality or prefix. -/
def matchesGitignorePattern (path : List Char)
    (patterns : List (List Char)) : Bool :=
  let normalizedPath := path.map (fun c => if c = '\\' then '/' else c)
  patterns.any (fun p =>
    if p.contains '/' then
      (indexOfAux p normalizedPath 0).isSome
    else
      (splitOnChar '/' normalizedPath).any
        (fun part => part == p || p.isPrefixOf part))

/-- virtual-fs.ts `isGitIgnored` with the module-level
`gitignorePatternsCache` made explicit: the patterns are loaded from
the (current) ignore-file content only when the cache is empty; the
cache is returned so successive calls can thread it.  No code path in
virtual-fs.ts ever resets the cache. -/
def isGitIgnored (gitignorePatternsCache : Option (List (List Char)))
    (gitignoreContent relativePath : List Char) :
    Bool × Option (List (List Char)) :=
  match gitignorePatternsCache with
  | none =>
    let patterns := readGitignorePatterns gitignoreContent
    (matchesGitignorePattern relativePath patterns, some patterns)
  | some patterns =>
    (matchesGitignorePattern relativePath patterns, some patterns)

/-- C9 counterexample: the first top-level call loads the pattern set
`["foo"]`; the ignore file then changes to `"bar"`, but the second call
still filters with the stale `["foo"]` — the path `"bar/x"` is not
ignored, although a fresh reload (what the claim asserts happens) would
ignore it. -/
theorem gitignore_cache_persists_counterexample :
    (isGitIgnored none "foo".toList "bar/x".toList).2
      = some ["foo".toList] ∧
    (isGitIgnored (some ["foo".toList]) "bar".toList "bar/x".toList).1
      = false ∧
    (isGitIgnored none "bar".toList "bar/x".toList).1 = true := by
  refine ⟨?_, ?_, ?_⟩ <;> rfl

/-- C9 (amended): the pattern set is loaded at most once per module
lifetime and IS persisted across top-level calls — a populated cache
makes `isGitIgnored` ignore the current ignore-file content entirely,
so a change to the ignore file between two `listWorkspaceFiles` calls
is not reflected in the second call's filtering. -/
theorem gitignore_cache_behavior :
    (∀ content path : List Char,
      isGitIgnored none content path =
        (matchesGitignorePattern path (readGitignorePatterns content),
          some (readGitignorePatterns content))) ∧
    (∀ (c : List (List Char)) (content content' path : List Char),
      isGitIgnored (some c) content path =
        isGitIgnored (some c) content' path ∧
      isGitIgnored (some c) content path =
        (matchesGitignorePattern path c, some c)) := by
  exact ⟨fun _ _ => rfl, fun _ _ _ _ => ⟨rfl, rfl⟩⟩

/-! ## Bounded directory traversal (virtual-fs.ts listWorkspaceFiles) -/

/-- A filesystem subtree as seen through `readDirectory`. -/
inductive FSEntry where
  | file (name : List Char)
  | dir (name : List Char) (children : List FSEntry)

/-- Entry name, as `readDirectory` reports it. -/
def FSEntry.name : FSEntry → List Char
  | .file n => n
  | .dir n _ => n

/-- The `"file" | "directory"` tag of a listing entry. -/
inductive EntryKind where
  | file
  | directory
deriving DecidableEq, Repr

/-- One element of the FileListingResult array. -/
structure ListingEntry where
  path : List Char
  type : EntryKind
deriving DecidableEq, Repr

/-- virtual-fs.ts `ALWAYS_EXCLUDED_DIRS`. -/
def ALWAYS_EXCLUDED_DIRS : List (List Char) :=
  ["node_modules".toList, ".git".toList, ".venv".toList, "venv".toList,
   "env".toList, "__pycache__".toList, ".pytest_cache".toList,
   ".mypy_cache".toList, "dist".toList, "build".toList, "out".toList,
   "target".toList, ".next".toList, ".nuxt".toList, "coverage".toList,
   ".nyc_output".toList, ".tox".toList, "eggs".toList, ".eggs".toList,
   "htmlcov".toList, ".coverage".toList, ".hypothesis".toList,
   ".ruff_cache".toList]

/-- `HIDDEN_LIMITS.MAX_IMMEDIATE_CHILDREN`. -/
def MAX_IMMEDIATE_CHILDREN : Nat := 1000

/-- `HIDDEN_LIMITS.ABSOLUTE_MAX_FILES` and `_DEPTH`. -/
def ABSOLUTE_MAX_FILES : Nat := 500

def ABSOLUTE_MAX_DEPTH : Nat := 10

/-- `FILE_LISTING_DEFAULTS`. -/
def DEFAULT_MAX_FILES : Nat := 200

def DEFAULT_MAX_DEPTH : Nat := 5

/-- `currentPath ? path.join(currentPath, name) : name`. -/
def pathJoin (currentPath name : List Char) : List Char :=
  if currentPath.isEmpty then name else currentPath ++ '/' :: name

/-- The effective configuration of one `listWorkspaceFiles` call (the
gitignore patterns stand for the per-process cache contents, see
`isGitIgnored`). -/
structure TraversalConfig where
  recursive : Bool
  ignoreGitignore : Bool
  effectiveMaxDepth : Nat
  effectiveMaxFiles : Nat
  gitignorePatterns : List (List Char)

/-- The closure variables of `listWorkspaceFiles` mutated during the
traversal (`visits` counts `processDirectory` invocations and indexes
the wall-clock timeout oracle). -/
structure TraversalState where
  fileCount : Nat
  limitReached : Bool
  visits : Nat
deriving DecidableEq, Repr

/-- Should this entry be skipped by the `continue` branches
(always-excluded directory names, then gitignore filtering)? -/
def skipEntry (cfg : TraversalConfig) (currentPath : List Char)
    (e : FSEntry) : Bool :=
  (match e with
   | .dir n _ => ALWAYS_EXCLUDED_DIRS.contains n
   | .file _ => false) ||
  (cfg.ignoreGitignore &&
    matchesGitignorePattern (pathJoin currentPath e.name)
      cfg.gitignorePatterns)

mutual

/-- virtual-fs.ts `processDirectory`: wall-clock timeout check (the
`timedOut` oracle, indexed by visit number, stands for
`Date.now() - startTime > TIMEOUT_MS`), depth limit, and the
immediate-children fan-out guard, then the entry loop. -/
def processDirectory (cfg : TraversalConfig) (timedOut : Nat → Bool)
    (entries : List FSEntry) (currentPath : List Char)
    (currentDepth : Nat) (st : TraversalState) :
    List ListingEntry × TraversalState :=
  let st0 := {st with visits := st.visits + 1}
  if timedOut st.visits then
    ([], {st0 with limitReached := true})
  else if cfg.recursive && decide (cfg.effectiveMaxDepth ≤ currentDepth) then
    ([], st0)
  else if MAX_IMMEDIATE_CHILDREN < entries.length then
    ([⟨currentPath, .directory⟩], st0)
  else
    processEntries cfg timedOut entries currentPath currentDepth st0

/-- The `for (const [name, type] of entries)` loop of
`processDirectory`: break once the file count reaches the limit, skip
excluded/ignored entries, push the entry, and recurse into directories
when requested and no limit has been hit. -/
def processEntries (cfg : TraversalConfig) (timedOut : Nat → Bool)
    (entries : List FSEntry) (currentPath : List Char)
    (currentDepth : Nat) (st : TraversalState) :
    List ListingEntry × TraversalState :=
  match entries with
  | [] => ([], st)
  | e :: rest =>
    if cfg.effectiveMaxFiles ≤ st.fileCount then
      ([], {st with limitReached := true})
    else if skipEntry cfg currentPath e then
      processEntries cfg timedOut rest currentPath currentDepth st
    else
      let entryPath := pathJoin currentPath e.name
      match e with
      | .file _ =>
        let st1 := {st with fileCount := st.fileCount + 1}
        let restRes := processEntries cfg timedOut rest currentPath
          currentDepth st1
        (⟨entryPath, .file⟩ :: restRes.1, restRes.2)
      | .dir _ children =>
        let st1 := {st with fileCount := st.fileCount + 1}
        if cfg.recursive && !st1.limitReached then
          let subRes := processDirectory cfg timedOut children entryPath
            (currentDepth + 1) st1
          let restRes := processEntries cfg timedOut rest currentPath
            currentDepth subRes.2
          (⟨entryPath, .directory⟩ :: (subRes.1 ++ restRes.1), restRes.2)
        else
          let restRes := processEntries cfg timedOut rest currentPath
            currentDepth st1
          (⟨entryPath, .directory⟩ :: restRes.1, restRes.2)

end

/-- The synthetic truncation entry appended by `listWorkspaceFiles`. -/
def truncationMarker (effectiveMaxFiles : Nat) : ListingEntry :=
  ⟨("[TRUNCATED: Reached limit of " ++ toString effectiveMaxFiles ++
    " files]").toList, .file⟩

/-- The configuration of a `listWorkspaceFiles` call after applying the
hidden ceilings (`Math.min` of caller values and absolute limits). -/
def effectiveConfig (recursive ignoreGitignore : Bool)
    (maxDepth maxFiles : Nat) (patterns : List (List Char)) :
    TraversalConfig :=
  { recursive := recursive,
    ignoreGitignore := ignoreGitignore,
    effectiveMaxDepth := min maxDepth ABSOLUTE_MAX_DEPTH,
    effectiveMaxFiles := min maxFiles ABSOLUTE_MAX_FILES,
    gitignorePatterns := patterns }

/-- virtual-fs.ts `listWorkspaceFiles`: clamp the caller limits by the
hidden ceilings, traverse from the target directory, and append exactly
one truncation marker when a limit was hit. -/
def listWorkspaceFiles (timedOut : Nat → Bool) (root : List FSEntry)
    (recursive ignoreGitignore : Bool) (maxDepth maxFiles : Nat)
    (patterns : List (List Char)) : List ListingEntry :=
  let cfg := effectiveConfig recursive ignoreGitignore maxDepth maxFiles
    patterns
  let res := processDirectory cfg timedOut root [] 0
    { fileCount := 0, limitReached := false, visits := 0 }
  if res.2.limitReached then
    res.1 ++ [truncationMarker cfg.effectiveMaxFiles]
  else
    res.1

mutual

/-- Every directory in this subtree has at most
`MAX_IMMEDIATE_CHILDREN` immediate children, so the fan-out guard never
fires on it. -/
def FSEntry.small : FSEntry → Bool
  | .file _ => true
  | .dir _ children =>
    decide (children.length ≤ MAX_IMMEDIATE_CHILDREN) &&
      smallForest children

def smallForest : List FSEntry → Bool
  | [] => true
  | e :: rest => e.small && smallForest rest

end

/-- A directory listing on which the fan-out guard never fires, at the
root or below. -/
def smallDirList (entries : List FSEntry) : Bool :=
  decide (entries.length ≤ MAX_IMMEDIATE_CHILDREN) && smallForest entries

mutual

/-- The number of entries the traversal emits (and counts) from a
directory when no file-count limit and no timeout interferes: the
eligible entry count of the claim. -/
def eligibleDir (cfg : TraversalConfig) (entries : List FSEntry)
    (currentPath : List Char) (currentDepth : Nat) : Nat :=
  if cfg.recursive && decide (cfg.effectiveMaxDepth ≤ currentDepth) then 0
  else if MAX_IMMEDIATE_CHILDREN < entries.length then 0
  else eligibleEntries cfg entries currentPath currentDepth

def eligibleEntries (cfg : TraversalConfig) (entries : List FSEntry)
    (currentPath : List Char) (currentDepth : Nat) : Nat :=
  match entries with
  | [] => 0
  | e :: rest =>
    if skipEntry cfg currentPath e then
      eligibleEntries cfg rest currentPath currentDepth
    else
      (match e with
       | .file _ => 1
       | .dir _ children =>
         1 + (if cfg.recursive then
           eligibleDir cfg children (pathJoin currentPath e.name)
             (currentDepth + 1)
         else 0)) +
      eligibleEntries cfg rest currentPath currentDepth

end

/-- Induction invariant relating `processDirectory` to the eligible
entry count, under no timeout and small directories: the final file
count clamps the eligible total at the limit, the emitted length equals
the count increase, `limitReached` is monotone, it is set whenever the
eligible total strictly exceeds the limit, and it is only set when the
limit was already reached or the eligible total reaches the limit. -/
def dirSpec (cfg : TraversalConfig) (timedOut : Nat → Bool)
    (entries : List FSEntry) (currentPath : List Char)
    (currentDepth : Nat) (st : TraversalState) : Prop :=
  (∀ n, timedOut n = false) →
  smallDirList entries = true →
  st.fileCount ≤ cfg.effectiveMaxFiles →
  (st.limitReached = true → cfg.effectiveMaxFiles ≤ st.fileCount) →
  (processDirectory cfg timedOut entries currentPath currentDepth
      st).2.fileCount =
    min cfg.effectiveMaxFiles
      (st.fileCount + eligibleDir cfg entries currentPath currentDepth) ∧
  (processDirectory cfg timedOut entries currentPath currentDepth
      st).1.length + st.fileCount =
    (processDirectory cfg timedOut entries currentPath currentDepth
      st).2.fileCount ∧
  (st.limitReached = true →
    (processDirectory cfg timedOut entries currentPath currentDepth
      st).2.limitReached = true) ∧
  (cfg.effectiveMaxFiles <
      st.fileCount + eligibleDir cfg entries currentPath currentDepth →
    (processDirectory cfg timedOut entries currentPath currentDepth
      st).2.limitReached = true) ∧
  ((processDirectory cfg timedOut entries currentPath currentDepth
      st).2.limitReached = true →
    st.limitReached = true ∨
    cfg.effectiveMaxFiles ≤
      st.fileCount + eligibleDir cfg entries currentPath currentDepth)

/-- The loop-level analogue of `dirSpec` for `processEntries`. -/
def entriesSpec (cfg : TraversalConfig) (timedOut : Nat → Bool)
    (entries : List FSEntry) (currentPath : List Char)
    (currentDepth : Nat) (st : TraversalState) : Prop :=
  (∀ n, timedOut n = false) →
  smallForest entries = true →
  st.fileCount ≤ cfg.effectiveMaxFiles →
  (st.limitReached = true → cfg.effectiveMaxFiles ≤ st.fileCount) →
  (processEntries cfg timedOut entries currentPath currentDepth
      st).2.fileCount =
    min cfg.effectiveMaxFiles
      (st.fileCount +
        eligibleEntries cfg entries currentPath currentDepth) ∧
  (processEntries cfg timedOut entries currentPath currentDepth
      st).1.length + st.fileCount =
    (processEntries cfg timedOut entries currentPath currentDepth
      st).2.fileCount ∧
  (st.limitReached = true →
    (processEntries cfg timedOut entries currentPath currentDepth
      st).2.limitReached = true) ∧
  (cfg.effectiveMaxFiles <
      st.fileCount +
        eligibleEntries cfg entries currentPath currentDepth →
    (processEntries cfg timedOut entries currentPath currentDepth
      st).2.limitReached = true) ∧
  ((processEntries cfg timedOut entries currentPath currentDepth
      st).2.limitReached = true →
    st.limitReached = true ∨
    cfg.effectiveMaxFiles ≤
      st.fileCount + eligibleEntries cfg entries currentPath currentDepth)

/-- The traversal invariant, proved by the mutual induction of
`processDirectory`/`processEntries`: with no timeout and small
directories, the file count clamps the eligible total at the effective
limit, the emitted length equals the count increase, and `limitReached`
is set exactly when an entry is examined at or beyond the limit. -/
theorem traversal_spec (cfg : TraversalConfig) (timedOut : Nat → Bool) :
    ∀ (entries : List FSEntry) (currentPath : List Char)
      (currentDepth : Nat) (st : TraversalState),
      dirSpec cfg timedOut entries currentPath currentDepth st := by
  intro entries currentPath currentDepth st
  refine processDirectory.induct cfg timedOut (dirSpec cfg timedOut)
    (entriesSpec cfg timedOut) ?c1 ?c2 ?c3 ?c4 ?c5 ?c6 ?c7 ?c8 ?c9 ?c10
    entries currentPath currentDepth st
  case c1 =>
    intro entries currentPath currentDepth st htime
    intro hto hsmall hfc hinv
    rw [hto st.visits] at htime
    exact absurd htime (by simp)
  case c2 =>
    intro entries currentPath currentDepth st h1 h2
    intro hto hsmall hfc hinv
    have hpd : processDirectory cfg timedOut entries currentPath
        currentDepth st = ([], {st with visits := st.visits + 1}) := by
      rw [processDirectory]
      simp [h1, h2]
    have helig : eligibleDir cfg entries currentPath currentDepth = 0 := by
      rw [eligibleDir]
      simp [h2]
    rw [hpd, helig]
    refine ⟨by simp; omega, by simp, fun h => by simpa using h,
      fun h => absurd h (by omega), fun h => Or.inl (by simpa using h)⟩
  case c3 =>
    intro entries currentPath currentDepth st h1 h2 h3
    intro hto hsmall hfc hinv
    exfalso
    simp only [smallDirList, Bool.and_eq_true, decide_eq_true_eq] at hsmall
    omega
  case c4 =>
    intro entries currentPath currentDepth st st0 h1 h2 h3 ih
    intro hto hsmall hfc hinv
    have hpd : processDirectory cfg timedOut entries currentPath
        currentDepth st = processEntries cfg timedOut entries currentPath
        currentDepth st0 := by
      rw [processDirectory]
      simp [h1, h2, h3]
    have helig : eligibleDir cfg entries currentPath currentDepth
        = eligibleEntries cfg entries currentPath currentDepth := by
      rw [eligibleDir]
      simp [h2, h3]
    have hsf : smallForest entries = true := by
      simp only [smallDirList, Bool.and_eq_true] at hsmall
      exact hsmall.2
    have h4 := ih hto hsf hfc hinv
    rw [hpd, helig]
    exact h4
  case c5 =>
    intro currentPath currentDepth st
    intro hto hsmall hfc hinv
    have hpe : processEntries cfg timedOut [] currentPath currentDepth st
        = ([], st) := by
      rw [processEntries]
    have helig : eligibleEntries cfg [] currentPath currentDepth = 0 := by
      rw [eligibleEntries.eq_def]
    rw [hpe, helig]
    exact ⟨by simp; omega, by simp, fun h => h,
      fun h => absurd h (by omega), fun h => Or.inl h⟩
  case c6 =>
    intro currentPath currentDepth st e rest hbreak
    intro hto hsmall hfc hinv
    have hpe : processEntries cfg timedOut (e :: rest) currentPath
        currentDepth st = ([], {st with limitReached := true}) := by
      rw [processEntries]
      simp [hbreak]
    rw [hpe]
    refine ⟨by simp; omega, by simp, by simp, fun _ => by simp,
      fun _ => Or.inr (by omega)⟩
  case c7 =>
    intro currentPath currentDepth st e rest hnb hskip ih
    intro hto hsmall hfc hinv
    have hpe : processEntries cfg timedOut (e :: rest) currentPath
        currentDepth st = processEntries cfg timedOut rest currentPath
        currentDepth st := by
      rw [processEntries]
      simp [hnb, hskip]
    have helig : eligibleEntries cfg (e :: rest) currentPath currentDepth
        = eligibleEntries cfg rest currentPath currentDepth := by
      rw [eligibleEntries.eq_def]
      simp [hskip]
    have hsf : smallForest rest = true := by
      rw [smallForest] at hsmall
      simp only [Bool.and_eq_true] at hsmall
      exact hsmall.2
    rw [hpe, helig]
    exact ih hto hsf hfc hinv
  case c8 =>
    intro currentPath currentDepth st rest hnb n st1 hskip ih
    intro hto hsmall hfc hinv
    have hstlim : st.limitReached = false := by
      cases hq : st.limitReached
      · rfl
      · exact absurd (hinv hq) hnb
    have hsf : smallForest rest = true := by
      rw [smallForest] at hsmall
      simp only [Bool.and_eq_true] at hsmall
      exact hsmall.2
    have hfc1 : st1.fileCount ≤ cfg.effectiveMaxFiles := by
      show st.fileCount + 1 ≤ _
      omega
    have hinv1 : st1.limitReached = true →
        cfg.effectiveMaxFiles ≤ st1.fileCount := by
      show st.limitReached = true → _
      rw [hstlim]
      intro hq
      exact absurd hq (by simp)
    obtain ⟨a1, a2, a3, a4, a5⟩ := ih hto hsf hfc1 hinv1
    have hpe : processEntries cfg timedOut (FSEntry.file n :: rest)
        currentPath currentDepth st =
        (⟨pathJoin currentPath n, .file⟩ ::
          (processEntries cfg timedOut rest currentPath currentDepth
            st1).1,
         (processEntries cfg timedOut rest currentPath currentDepth
            st1).2) := by
      rw [processEntries]
      simp [hnb, hskip, FSEntry.name]
    have helig : eligibleEntries cfg (FSEntry.file n :: rest) currentPath
        currentDepth = 1 + eligibleEntries cfg rest currentPath
        currentDepth := by
      rw [eligibleEntries]
      simp [hskip]
    have hq1 : st1.fileCount = st.fileCount + 1 := rfl
    have hq2 : st1.limitReached = st.limitReached := rfl
    rw [hpe, helig]
    rw [hq1] at a1 a2
    rw [hq2, hstlim] at a5
    refine ⟨by rw [a1]; omega, by simp only [List.length_cons]; omega,
      fun h => absurd h (by rw [hstlim]; simp), fun h => a4 (by omega),
      fun h => ?_⟩
    rcases a5 h with h' | h'
    · exact absurd h' (by simp)
    · exact Or.inr (by omega)
  case c9 =>
    intro currentPath currentDepth st rest hnb n children st1 hrec hskip
      entryPath subRes ih1 ih1b ih2
    intro hto hsmall hfc hinv
    clear ih1b
    have hstlim : st.limitReached = false := by
      cases hq : st.limitReached
      · rfl
      · exact absurd (hinv hq) hnb
    have hrecT : cfg.recursive = true := by
      simp only [Bool.and_eq_true] at hrec
      exact hrec.1
    have hsmCh : smallDirList children = true := by
      rw [smallForest] at hsmall
      simp only [Bool.and_eq_true] at hsmall
      have h1 := hsmall.1
      rw [FSEntry.small] at h1
      exact h1
    have hsf : smallForest rest = true := by
      rw [smallForest] at hsmall
      simp only [Bool.and_eq_true] at hsmall
      exact hsmall.2
    have hfc1 : st1.fileCount ≤ cfg.effectiveMaxFiles := by
      show st.fileCount + 1 ≤ _
      omega
    have hinv1 : st1.limitReached = true →
        cfg.effectiveMaxFiles ≤ st1.fileCount := by
      show st.limitReached = true → _
      rw [hstlim]
      intro hq
      exact absurd hq (by simp)
    obtain ⟨a1, a2, a3, a4, a5⟩ := ih1 hto hsmCh hfc1 hinv1
    have ha1 : (processDirectory cfg timedOut children
        (pathJoin currentPath n) (currentDepth + 1) st1).2.fileCount =
        min cfg.effectiveMaxFiles (st.fileCount + 1 +
          eligibleDir cfg children (pathJoin currentPath n)
            (currentDepth + 1)) := a1
    have ha2 : (processDirectory cfg timedOut children
        (pathJoin currentPath n) (currentDepth + 1) st1).1.length +
        (st.fileCount + 1) =
        (processDirectory cfg timedOut children (pathJoin currentPath n)
          (currentDepth + 1) st1).2.fileCount := a2
    have ha5 : (processDirectory cfg timedOut children
        (pathJoin currentPath n) (currentDepth + 1) st1).2.limitReached =
        true → st.limitReached = true ∨ cfg.effectiveMaxFiles ≤
        st.fileCount + 1 + eligibleDir cfg children
          (pathJoin currentPath n) (currentDepth + 1) := a5
    have ha4 : cfg.effectiveMaxFiles < st.fileCount + 1 +
        eligibleDir cfg children (pathJoin currentPath n)
          (currentDepth + 1) →
        (processDirectory cfg timedOut children (pathJoin currentPath n)
          (currentDepth + 1) st1).2.limitReached = true := a4
    rw [hstlim] at ha5
    have hfc2 : (processDirectory cfg timedOut children
        (pathJoin currentPath n) (currentDepth + 1) st1).2.fileCount ≤
        cfg.effectiveMaxFiles := by
      rw [ha1]; omega
    have hinv2 : (processDirectory cfg timedOut children
        (pathJoin currentPath n) (currentDepth + 1) st1).2.limitReached =
        true → cfg.effectiveMaxFiles ≤ (processDirectory cfg timedOut
          children (pathJoin currentPath n) (currentDepth + 1)
          st1).2.fileCount := by
      intro hq
      rcases ha5 hq with h' | h'
      · exact absurd h' (by simp)
      · rw [ha1]
        omega
    have ih2' : entriesSpec cfg timedOut rest currentPath currentDepth
        (processDirectory cfg timedOut children (pathJoin currentPath n)
          (currentDepth + 1) st1).2 := ih2
    obtain ⟨b1, b2, b3, b4, b5⟩ := ih2' hto hsf hfc2 hinv2
    have hpe : processEntries cfg timedOut
        (FSEntry.dir n children :: rest) currentPath currentDepth st =
        (⟨pathJoin currentPath n, .directory⟩ ::
          ((processDirectory cfg timedOut children
            (pathJoin currentPath n) (currentDepth + 1) st1).1 ++
           (processEntries cfg timedOut rest currentPath currentDepth
            (processDirectory cfg timedOut children
              (pathJoin currentPath n) (currentDepth + 1) st1).2).1),
         (processEntries cfg timedOut rest currentPath currentDepth
            (processDirectory cfg timedOut children
              (pathJoin currentPath n) (currentDepth + 1) st1).2).2) := by
      rw [processEntries]
      simp [hnb, hskip, hrec, FSEntry.name]
    have helig : eligibleEntries cfg (FSEntry.dir n children :: rest)
        currentPath currentDepth =
        1 + eligibleDir cfg children (pathJoin currentPath n)
          (currentDepth + 1) +
        eligibleEntries cfg rest currentPath currentDepth := by
      rw [eligibleEntries]
      simp [hskip, hrecT, FSEntry.name]
    rw [hpe, helig]
    clear a1 a2 a4 a5
    refine ⟨?_, ?_, ?_, ?_, ?_⟩
    · show (processEntries cfg timedOut rest currentPath currentDepth
          (processDirectory cfg timedOut children (pathJoin currentPath n)
            (currentDepth + 1) st1).2).2.fileCount =
        min cfg.effectiveMaxFiles (st.fileCount +
          (1 + eligibleDir cfg children (pathJoin currentPath n)
            (currentDepth + 1) +
          eligibleEntries cfg rest currentPath currentDepth))
      omega
    · simp only [List.length_cons, List.length_append]
      omega
    · intro h
      exact absurd h (by rw [hstlim]; simp)
    · intro h
      by_cases hcase : cfg.effectiveMaxFiles < st.fileCount + 1 +
          eligibleDir cfg children (pathJoin currentPath n)
            (currentDepth + 1)
      · exact b3 (ha4 (by omega))
      · exact b4 (by omega)
    · intro h
      rcases b5 h with h' | h'
      · rcases ha5 h' with h'' | h''
        · exact absurd h'' (by simp)
        · exact Or.inr (by omega)
      · exact Or.inr (by omega)
  case c10 =>
    intro currentPath currentDepth st rest hnb n children st1 hnrec hskip
      ih
    intro hto hsmall hfc hinv
    have hstlim : st.limitReached = false := by
      cases hq : st.limitReached
      · rfl
      · exact absurd (hinv hq) hnb
    have hrecF : cfg.recursive = false := by
      cases hc : cfg.recursive
      · rfl
      · exfalso
        apply hnrec
        show (cfg.recursive && !st1.limitReached) = true
        rw [hc]
        show (true && !st.limitReached) = true
        rw [hstlim]
        rfl
    have hsf : smallForest rest = true := by
      rw [smallForest] at hsmall
      simp only [Bool.and_eq_true] at hsmall
      exact hsmall.2
    have hfc1 : st1.fileCount ≤ cfg.effectiveMaxFiles := by
      show st.fileCount + 1 ≤ _
      omega
    have hinv1 : st1.limitReached = true →
        cfg.effectiveMaxFiles ≤ st1.fileCount := by
      show st.limitReached = true → _
      rw [hstlim]
      intro hq
      exact absurd hq (by simp)
    obtain ⟨a1, a2, a3, a4, a5⟩ := ih hto hsf hfc1 hinv1
    have hpe : processEntries cfg timedOut (FSEntry.dir n children :: rest)
        currentPath currentDepth st =
        (⟨pathJoin currentPath n, .directory⟩ ::
          (processEntries cfg timedOut rest currentPath currentDepth
            st1).1,
         (processEntries cfg timedOut rest currentPath currentDepth
            st1).2) := by
      rw [processEntries]
      simp [hnb, hskip, hnrec, FSEntry.name]
    have helig : eligibleEntries cfg (FSEntry.dir n children :: rest)
        currentPath currentDepth = 1 + eligibleEntries cfg rest
        currentPath currentDepth := by
      rw [eligibleEntries]
      simp [hskip, hrecF, FSEntry.name]
    have hq1 : st1.fileCount = st.fileCount + 1 := rfl
    have hq2 : st1.limitReached = st.limitReached := rfl
    rw [hpe, helig]
    rw [hq1] at a1 a2
    rw [hq2, hstlim] at a5
    refine ⟨by rw [a1]; omega, by simp only [List.length_cons]; omega,
      fun h => absurd h (by rw [hstlim]; simp), fun h => a4 (by omega),
      fun h => ?_⟩
    rcases a5 h with h' | h'
    · exact absurd h' (by simp)
    · exact Or.inr (by omega)
/-- C6 (amended): with no timeout and no oversized directories, a
traversal whose eligible entry count strictly exceeds the effective
max-files limit returns exactly limit + 1 entries with the truncation
marker last; a traversal whose eligible count is strictly below the
limit returns them all with no marker appended; and in every case at
most one marker is appended, as the final element.  (At eligible count
exactly equal to the limit the marker can appear spuriously — see the
counterexample.) -/
theorem listWorkspaceFiles_truncation
    (timedOut : Nat → Bool) (root : List FSEntry)
    (recursive ignoreGitignore : Bool) (maxDepth maxFiles : Nat)
    (patterns : List (List Char))
    (hto : ∀ n, timedOut n = false)
    (hsmall : smallDirList root = true) :
    (min maxFiles ABSOLUTE_MAX_FILES <
        eligibleDir (effectiveConfig recursive ignoreGitignore maxDepth
          maxFiles patterns) root [] 0 →
      (listWorkspaceFiles timedOut root recursive ignoreGitignore
        maxDepth maxFiles patterns).length =
          min maxFiles ABSOLUTE_MAX_FILES + 1 ∧
      (listWorkspaceFiles timedOut root recursive ignoreGitignore
        maxDepth maxFiles patterns).getLast? =
          some (truncationMarker (min maxFiles ABSOLUTE_MAX_FILES))) ∧
    (eligibleDir (effectiveConfig recursive ignoreGitignore maxDepth
        maxFiles patterns) root [] 0 < min maxFiles ABSOLUTE_MAX_FILES →
      listWorkspaceFiles timedOut root recursive ignoreGitignore maxDepth
        maxFiles patterns =
        (processDirectory (effectiveConfig recursive ignoreGitignore
          maxDepth maxFiles patterns) timedOut root [] 0
          ⟨0, false, 0⟩).1 ∧
      (listWorkspaceFiles timedOut root recursive ignoreGitignore
        maxDepth maxFiles patterns).length =
        eligibleDir (effectiveConfig recursive ignoreGitignore maxDepth
          maxFiles patterns) root [] 0) ∧
    (listWorkspaceFiles timedOut root recursive ignoreGitignore maxDepth
        maxFiles patterns =
      (processDirectory (effectiveConfig recursive ignoreGitignore
        maxDepth maxFiles patterns) timedOut root [] 0 ⟨0, false, 0⟩).1 ∨
     listWorkspaceFiles timedOut root recursive ignoreGitignore maxDepth
        maxFiles patterns =
      (processDirectory (effectiveConfig recursive ignoreGitignore
        maxDepth maxFiles patterns) timedOut root [] 0 ⟨0, false, 0⟩).1 ++
      [truncationMarker (min maxFiles ABSOLUTE_MAX_FILES)]) := by
  have hM : (effectiveConfig recursive ignoreGitignore maxDepth maxFiles
      patterns).effectiveMaxFiles = min maxFiles ABSOLUTE_MAX_FILES := rfl
  obtain ⟨a1, a2, a3, a4, a5⟩ :=
    traversal_spec (effectiveConfig recursive ignoreGitignore maxDepth
      maxFiles patterns) timedOut root [] 0 ⟨0, false, 0⟩ hto hsmall
      (Nat.zero_le _) (by intro h; exact absurd h (by simp))
  have e0 : ({ fileCount := 0, limitReached := false, visits := 0 } :
      TraversalState).fileCount = 0 := rfl
  have e1 : ({ fileCount := 0, limitReached := false, visits := 0 } :
      TraversalState).limitReached = false := rfl
  simp only [e0, e1, Nat.zero_add] at a1 a2 a4 a5
  have hlist : listWorkspaceFiles timedOut root recursive ignoreGitignore
      maxDepth maxFiles patterns =
      if (processDirectory (effectiveConfig recursive ignoreGitignore
          maxDepth maxFiles patterns) timedOut root [] 0
          ⟨0, false, 0⟩).2.limitReached then
        (processDirectory (effectiveConfig recursive ignoreGitignore
          maxDepth maxFiles patterns) timedOut root [] 0
          ⟨0, false, 0⟩).1 ++
        [truncationMarker (min maxFiles ABSOLUTE_MAX_FILES)]
      else
        (processDirectory (effectiveConfig recursive ignoreGitignore
          maxDepth maxFiles patterns) timedOut root [] 0
          ⟨0, false, 0⟩).1 := rfl
  refine ⟨?_, ?_, ?_⟩
  · intro hgt
    have hlim : (processDirectory (effectiveConfig recursive
        ignoreGitignore maxDepth maxFiles patterns) timedOut root [] 0
        ⟨0, false, 0⟩).2.limitReached = true := a4 (by omega)
    rw [hlist, hlim, if_pos rfl]
    constructor
    · simp only [List.length_append, List.length_cons, List.length_nil]
      omega
    · exact List.getLast?_concat _
  · intro hlt
    have hlim : (processDirectory (effectiveConfig recursive
        ignoreGitignore maxDepth maxFiles patterns) timedOut root [] 0
        ⟨0, false, 0⟩).2.limitReached = false := by
      cases hq : (processDirectory (effectiveConfig recursive
          ignoreGitignore maxDepth maxFiles patterns) timedOut root [] 0
          ⟨0, false, 0⟩).2.limitReached
      · rfl
      · rcases a5 hq with h' | h'
        · exact absurd h' (by simp)
        · exact absurd h' (by omega)
    rw [hlist, hlim]
    simp only [Bool.false_eq_true, if_false]
    exact ⟨by trivial, by omega⟩
  · rw [hlist]
    cases hq : (processDirectory (effectiveConfig recursive
        ignoreGitignore maxDepth maxFiles patterns) timedOut root [] 0
        ⟨0, false, 0⟩).2.limitReached
    · simp
    · simp

/-- C6 counterexample: a root with eligible entry count 1 and
max-files 1 (eligible count ≤ effective limit, no other limit hit)
still gets a truncation marker, because the loop's break check fires on
examining the following always-excluded `node_modules` entry after the
count reached the limit — refuting "no truncation marker appears". -/
theorem listWorkspaceFiles_spurious_marker_counterexample :
    eligibleDir (effectiveConfig false false 5 1 [])
        [.file "a".toList, .dir "node_modules".toList []] [] 0 = 1 ∧
    1 ≤ min 1 ABSOLUTE_MAX_FILES ∧
    listWorkspaceFiles (fun _ => false)
        [.file "a".toList, .dir "node_modules".toList []] false false 5 1
        [] = [⟨"a".toList, .file⟩, truncationMarker 1] := by
  refine ⟨?_, by decide, ?_⟩
  · simp [eligibleDir, eligibleEntries, skipEntry, effectiveConfig,
      MAX_IMMEDIATE_CHILDREN, pathJoin, FSEntry.name,
      ALWAYS_EXCLUDED_DIRS]
  · simp [listWorkspaceFiles, processDirectory, processEntries, skipEntry,
      effectiveConfig, MAX_IMMEDIATE_CHILDREN, ABSOLUTE_MAX_FILES,
      ABSOLUTE_MAX_DEPTH, pathJoin, FSEntry.name]

/-- C6 witness: three files with limit 2 give 3 entries ending in the
marker; the same root with limit 500 lists all eligible entries with no
marker. -/
theorem listWorkspaceFiles_truncation_witness :
    (listWorkspaceFiles (fun _ => false) [.file "a".toList,
      .file "b".toList, .file "c".toList] false false 5 2 []).length =
      min 2 ABSOLUTE_MAX_FILES + 1 ∧
    (listWorkspaceFiles (fun _ => false) [.file "a".toList,
      .file "b".toList, .file "c".toList] false false 5 2 []).getLast? =
      some (truncationMarker (min 2 ABSOLUTE_MAX_FILES)) ∧
    (listWorkspaceFiles (fun _ => false) [.file "a".toList,
      .file "b".toList, .file "c".toList] false false 5 500 []).length =
      eligibleDir (effectiveConfig false false 5 500 [])
        [.file "a".toList, .file "b".toList, .file "c".toList] [] 0 := by
  have hsm : smallDirList [FSEntry.file "a".toList,
      FSEntry.file "b".toList, FSEntry.file "c".toList] = true := by
    simp [smallDirList, smallForest, FSEntry.small, MAX_IMMEDIATE_CHILDREN]
  have hE2 : eligibleDir (effectiveConfig false false 5 2 [])
      [.file "a".toList, .file "b".toList, .file "c".toList] [] 0 = 3 := by
    simp [eligibleDir, eligibleEntries, skipEntry, effectiveConfig,
      MAX_IMMEDIATE_CHILDREN, pathJoin, FSEntry.name,
      ALWAYS_EXCLUDED_DIRS]
  have hE500 : eligibleDir (effectiveConfig false false 5 500 [])
      [.file "a".toList, .file "b".toList, .file "c".toList] [] 0 = 3 := by
    simp [eligibleDir, eligibleEntries, skipEntry, effectiveConfig,
      MAX_IMMEDIATE_CHILDREN, pathJoin, FSEntry.name,
      ALWAYS_EXCLUDED_DIRS]
  have h1 := listWorkspaceFiles_truncation (fun _ => false)
    [.file "a".toList, .file "b".toList, .file "c".toList] false false 5 2
    [] (fun _ => rfl) hsm
  have h2 := listWorkspaceFiles_truncation (fun _ => false)
    [.file "a".toList, .file "b".toList, .file "c".toList] false false 5
    500 [] (fun _ => rfl) hsm
  obtain ⟨hA, hB⟩ := h1.1 (by rw [hE2]; decide)
  obtain ⟨hC, hD⟩ := h2.2.1 (by rw [hE500]; decide)
  exact ⟨hA, hB, hD⟩

end VSCodeMCP
